import Mathlib

/-!
Verification development for the pi-high-availability failover engine.

The TypeScript extension (src/extensions/index.ts, credential-based iteration)
is shallowly embedded here: strings become `List Char`, JS `Map`/objects become
association lists preserving insertion order, `Date.now()` becomes an explicit
`Int` parameter, and the asynchronous `turn_end` handler becomes a pure function
from the pre-state, the event and the host context to a post-state plus the
list of re-dispatched user messages.
-/

namespace HA

/-- JS strings, embedded as lists of characters. -/
abbrev Str := List Char

-- ==========================================================================
-- String-literal constants (patterns and tags from the source)
-- ==========================================================================

def p429 : String := "429"

def pQuotaExceeded : String := "quota exceeded"

def pResourceExhausted : String := "resource exhausted"

def pRateLimit1 : String := "rate limit"

def pRateLimit2 : String := "rate_limit"

def pExceededCurrentQuota : String := "exceeded_current_quota"

def pInsufficientQuota : String := "insufficient quota"

def pBilling : String := "billing"

def pExhaustedWord : String := "exhausted"

def pCapacityConstraints : String := "capacity constraints"

def pEngineOverloaded : String := "engine overloaded"

def pNoCapacity : String := "no capacity available"

def pServerOverloaded : String := "server overloaded"

def pTemporarilyUnavailable : String := "temporarily unavailable"

def pRetryFailedAfter : String := "retry failed after "

def pAttempts : String := " attempts"

def pGoogle : String := "google"

def pGemini : String := "gemini"

def decimalDigits : String := "0123456789"

-- ==========================================================================
-- Substring and regex primitives (JS RegExp.test on an already-lowercased
-- message; all source patterns are lowercase literals except the digit class)
-- ==========================================================================

/-- `String.prototype.toLowerCase`, per character. -/
def lowerStr (s : Str) : Str := s.map Char.toLower

/-- Substring test: does `pat` occur contiguously in `s`?  (JS `includes` /
a regex consisting of a plain literal). -/
def containsSub (pat : Str) : Str → Bool
  | [] => pat.isEmpty
  | c :: rest => pat.isPrefixOf (c :: rest) || containsSub pat rest

/-- JS regex `.`: any character except a line terminator. -/
def isLineTerm (c : Char) : Bool :=
  c = '\n' || c = '\r' || c = '\u2028' || c = '\u2029'

/-- After the literal `billing`, regex `.*exhausted`: some run of
non-line-terminator characters followed by the literal `exhausted`. -/
def billingRest : Str → Bool
  | [] => false
  | c :: rest =>
    pExhaustedWord.data.isPrefixOf (c :: rest) || (!isLineTerm c && billingRest rest)

/-- The quota pattern `/billing.*exhausted/` tested anywhere in the string. -/
def billingTest : Str → Bool
  | [] => false
  | c :: rest =>
    (pBilling.data.isPrefixOf (c :: rest)
      && billingRest ((c :: rest).drop pBilling.data.length))
    || billingTest rest

/-- Regex `\d+ attempts`: one or more digits directly followed by the literal
`" attempts"`.  `moreDigitsThenAttempts` is entered after at least one digit
has been consumed. -/
def moreDigitsThenAttempts : Str → Bool
  | [] => false
  | c :: rest =>
    pAttempts.data.isPrefixOf (c :: rest) || (c.isDigit && moreDigitsThenAttempts rest)

def digitsThenAttempts : Str → Bool
  | [] => false
  | c :: rest => c.isDigit && moreDigitsThenAttempts rest

/-- Does `/retry failed after \d+ attempts/` match starting at this position? -/
def geminiFinalAt (s : Str) : Bool :=
  pRetryFailedAfter.data.isPrefixOf s
    && digitsThenAttempts (s.drop pRetryFailedAfter.data.length)

/-- `GEMINI_FINAL_RETRY_PATTERN.test`: the pattern matches at some position. -/
def geminiFinalTest : Str → Bool
  | [] => false
  | c :: rest => geminiFinalAt (c :: rest) || geminiFinalTest rest

-- ==========================================================================
-- Error classification (isQuotaError / isCapacityError / shouldTriggerFailover)
-- ==========================================================================

/-- `QUOTA_ERROR_PATTERNS` minus the one non-literal member
(`/billing.*exhausted/`, handled by `billingTest`). -/
def QUOTA_PLAIN_PATTERNS : List Str :=
  [p429.data, pQuotaExceeded.data, pResourceExhausted.data, pRateLimit1.data,
   pRateLimit2.data, pExceededCurrentQuota.data, pInsufficientQuota.data]

def CAPACITY_ERROR_PATTERNS : List Str :=
  [pCapacityConstraints.data, pEngineOverloaded.data, pNoCapacity.data,
   pServerOverloaded.data, pTemporarilyUnavailable.data]

/-- `isQuotaError(errorMessage)`.  A missing or empty message (JS falsy) is
not a quota error. -/
def isQuotaError : Option Str → Bool
  | none => false
  | some msg =>
    if msg.isEmpty then false
    else
      QUOTA_PLAIN_PATTERNS.any (fun p => containsSub p (lowerStr msg))
        || billingTest (lowerStr msg)

/-- `provider?.includes("google") || provider?.includes("gemini")`. -/
def providerIsGemini : Option Str → Bool
  | none => false
  | some pid => containsSub pGoogle.data pid || containsSub pGemini.data pid

/-- `isCapacityError(errorMessage, provider)`: for the Gemini family, the
terminal retry pattern wins, an intermediate `no capacity available` message
is ignored, and anything else falls through to the generic pattern list. -/
def isCapacityError (errorMessage provider : Option Str) : Bool :=
  match errorMessage with
  | none => false
  | some msg =>
    if msg.isEmpty then false
    else if providerIsGemini provider then
      if geminiFinalTest (lowerStr msg) then true
      else if containsSub pNoCapacity.data (lowerStr msg) then false
      else CAPACITY_ERROR_PATTERNS.any (fun p => containsSub p (lowerStr msg))
    else CAPACITY_ERROR_PATTERNS.any (fun p => containsSub p (lowerStr msg))

/-- `shouldTriggerFailover`: quota first, then capacity. -/
def shouldTriggerFailover (errorMessage provider : Option Str) : Bool :=
  isQuotaError errorMessage || isCapacityError errorMessage provider

/-- The spec's three-way classification result. -/
inductive ErrClass where
  | noFailure : ErrClass
  | quota : ErrClass
  | capacity : ErrClass
deriving DecidableEq, Repr

/-- The spec's classifier (spec section 4.1), stated over the source's two
predicates with quota evaluated first, exactly as `shouldTriggerFailover`
orders its disjunction.  Kept as a separate, clearly spec-side definition for
comparison with the source functions. -/
def classifySpec (errorMessage provider : Option Str) : ErrClass :=
  if isQuotaError errorMessage then ErrClass.quota
  else if isCapacityError errorMessage provider then ErrClass.capacity
  else ErrClass.noFailure

/-- The canonical terminal Gemini message built from a digit string `ds`
standing for the number N: `retry failed after N attempts`. -/
def terminalMsg (ds : Str) : Str :=
  pRetryFailedAfter.data ++ ds ++ pAttempts.data

-- ==========================================================================
-- Association lists: JS `Map` / plain objects with string keys, in insertion
-- order.  `alookup` is `get` (first binding), `aset` is `set`/assignment
-- (replace the binding in place, else append), `adel` is `delete`.
-- ==========================================================================

def alookup {β : Type} : List (Str × β) → Str → Option β
  | [], _ => none
  | (k, v) :: rest, key => if k = key then some v else alookup rest key

def aset {β : Type} : List (Str × β) → Str → β → List (Str × β)
  | [], key, v => [(key, v)]
  | (k, w) :: rest, key, v =>
    if k = key then (k, v) :: rest else (k, w) :: aset rest key v

def adel {β : Type} : List (Str × β) → Str → List (Str × β)
  | [], _ => []
  | (k, w) :: rest, key => if k = key then rest else (k, w) :: adel rest key

-- ==========================================================================
-- Exhaustion registry
-- ==========================================================================

structure ExhaustedEntry where
  id : Str
  exhaustedAt : Int
  cooldownMs : Int
deriving DecidableEq, Repr

abbrev ExhMap := List (Str × ExhaustedEntry)

def DEFAULT_COOLDOWN_MS : Int := 60 * 60 * 1000

/-- `markExhausted(entryId, cooldownMs)` at time `now` (`Date.now()`). -/
def markExhausted (m : ExhMap) (now : Int) (entryId : Str) (cooldownMs : Int) : ExhMap :=
  aset m entryId ⟨entryId, now, cooldownMs⟩

/-- `isExhausted(entryId)` at time `now`: the boolean result together with the
map after the lazy deletion of an expired entry. -/
def isExhausted (m : ExhMap) (now : Int) (entryId : Str) : Bool × ExhMap :=
  match alookup m entryId with
  | none => (false, m)
  | some entry =>
    if now - entry.exhaustedAt ≥ entry.cooldownMs then (false, adel m entryId)
    else (true, m)

/-- The pure reading of `isExhausted`: the boolean it returns at time `now`.
The lazy deletion only removes already-expired entries, so it never changes
this value for any key at the same `now` (`isExhaustedP_isExhausted_snd`);
the scanning functions below therefore consult this predicate. -/
def isExhaustedP (m : ExhMap) (now : Int) (entryId : Str) : Bool :=
  match alookup m entryId with
  | none => false
  | some entry => now - entry.exhaustedAt < entry.cooldownMs

/-- `getCooldownMs(entry, globalDefault)`: the per-entry override if present,
else the global default.  Defined in the repository but never called on the
exhaustion-marking paths.  (`HaGroupEntry` is introduced below; the argument
here is its `cooldownMs` field.) -/
def getCooldownMs (entryCooldownMs : Option Int) (globalDefault : Int) : Int :=
  entryCooldownMs.getD globalDefault

-- ==========================================================================
-- Entry ids and the configuration data model
-- ==========================================================================

/-- JS `"…".split("/")`: splitting never yields `[]`, an id without slash
yields a singleton, and separators at the ends yield empty segments. -/
def splitSlash : Str → List Str
  | [] => [[]]
  | c :: rest =>
    if c = '/' then [] :: splitSlash rest
    else
      match splitSlash rest with
      | [] => [[c]]
      | p :: ps => (c :: p) :: ps

structure ParsedEntry where
  provider : Str
  modelId : Option Str
deriving DecidableEq, Repr

/-- `parseEntryId`: split at `/`; exactly two parts means
`provider/model`, anything else is a provider-only id. -/
def parseEntryId (entryId : Str) : ParsedEntry :=
  match splitSlash entryId with
  | [a, b] => ⟨a, some b⟩
  | _ => ⟨entryId, none⟩

structure HaGroupEntry where
  id : Str
  cooldownMs : Option Int
deriving DecidableEq, Repr

instance : Inhabited HaGroupEntry := ⟨⟨[], none⟩⟩

structure HaGroup where
  name : Str
  entries : List HaGroupEntry
deriving DecidableEq, Repr

def sOauth : String := "oauth"

def sApiKey : String := "api_key"

def sPrimary : String := "primary"

def sBackupDash : String := "backup-"

/-- A credential blob as far as the engine inspects it: the `type`
discriminator, the identifying fields compared by `credentialsMatch`, and an
opaque remainder. -/
structure Cred where
  ctype : Str
  refresh : Option Str
  key : Option Str
  payload : Str
deriving DecidableEq, Repr

abbrev CredMap := List (Str × Cred)

abbrev CredStore := List (Str × CredMap)

structure HaConfig where
  groups : List (Str × HaGroup)
  defaultGroup : Option Str
  defaultCooldownMs : Option Int
  credentials : Option CredStore
deriving DecidableEq, Repr

/-- `config.defaultCooldownMs ?? DEFAULT_COOLDOWN_MS`, recomputed at each
marking site in the source. -/
def globalCooldown (cfg : HaConfig) : Int :=
  cfg.defaultCooldownMs.getD DEFAULT_COOLDOWN_MS

-- ==========================================================================
-- Credential rotation
-- ==========================================================================

/-- The key `providerId:name` under which a credential's exhaustion is
tracked. -/
def credKey (providerId name : Str) : Str := providerId ++ (':' :: name)

/-- JS `x || "primary"`: `undefined` and the empty string fall back. -/
def jsOrPrimary : Option Str → Str
  | none => sPrimary.data
  | some s => if s.isEmpty then sPrimary.data else s

/-- `getNextCredential(providerId)`: circular scan over the stored credential
names starting right after the active one, returning the first name that is
not the active one and is not exhausted under `providerId:name`. -/
def getNextCredential (cfg : HaConfig) (activeCredential : List (Str × Str))
    (exh : ExhMap) (now : Int) (providerId : Str) : Option Str :=
  match cfg.credentials with
  | none => none
  | some store =>
    match alookup store providerId with
    | none => none
    | some entries =>
      let current := jsOrPrimary (alookup activeCredential providerId)
      let names := entries.map Prod.fst
      if names.length ≤ 1 then none
      else
        let startIndex :=
          match names.findIdx? (fun n => n = current) with
          | none => 0
          | some i => (i + 1) % names.length
        (List.range names.length).findSome? (fun i =>
          let name := names.getD ((startIndex + i) % names.length) []
          if name = current then none
          else if isExhaustedP exh now (credKey providerId name) then none
          else some name)

/-- `switchOAuthCredential(providerId, credentialName)`: false when the named
credential is not stored; otherwise record it as active.  (The copy into the
external auth store is outside the engine's state.) -/
def switchOAuthCredential (cfg : HaConfig) (activeCredential : List (Str × Str))
    (providerId credentialName : Str) : Bool × List (Str × Str) :=
  match cfg.credentials with
  | none => (false, activeCredential)
  | some store =>
    match alookup store providerId with
    | none => (false, activeCredential)
    | some entries =>
      match alookup entries credentialName with
      | none => (false, activeCredential)
      | some _ => (true, aset activeCredential providerId credentialName)

-- ==========================================================================
-- Endpoint rotation
-- ==========================================================================

structure ModelRef where
  provider : Str
  id : Str
deriving DecidableEq, Repr

inductive MsgContent where
  | str : Str → MsgContent
  | structured : Str → MsgContent
deriving DecidableEq, Repr

/-- `typeof content === "string" ? content : JSON.stringify(content)`; a
structured content carries its JSON serialization. -/
def fingerprint : MsgContent → Str
  | MsgContent.str s => s
  | MsgContent.structured j => j

structure BranchMsg where
  role : Str
  content : MsgContent
deriving DecidableEq, Repr

structure BranchEntry where
  etype : Str
  message : Option BranchMsg
deriving DecidableEq, Repr

/-- The host context consumed by one `turn_end` invocation: the current model,
the model registry (`getAvailable`, truthiness of `getApiKey`), the host's
`setModel` verdict, and the session branch. -/
structure TurnCtx where
  model : Option ModelRef
  available : List ModelRef
  apiKeyOk : ModelRef → Bool
  setModelOk : ModelRef → Bool
  branch : List BranchEntry

/-- The per-entry body of the scan loop in `findNextAvailableProvider`:
`none` means `continue`. -/
def entryCandidate (exh : ExhMap) (now : Int) (ctx : TurnCtx)
    (entry : HaGroupEntry) : Option (ModelRef × HaGroupEntry) :=
  let parsed := parseEntryId entry.id
  if isExhaustedP exh now entry.id then none
  else
    match ctx.available.filter (fun m => m.provider = parsed.provider) with
    | [] => none
    | first :: restAvail =>
      let selected :=
        match parsed.modelId with
        | some mid =>
          if mid.isEmpty then some first
          else (first :: restAvail).find? (fun m => m.id = mid)
        | none => some first
      match selected with
      | none => none
      | some selectedModel =>
        if ctx.apiKeyOk selectedModel then some (selectedModel, entry) else none

/-- `findNextAvailableProvider`: a linear first-match scan over the active
group's entries.  The `currentModel` argument is accepted (as in the source)
but never read. -/
def findNextAvailableProvider (cfg? : Option HaConfig) (activeGroup : Option Str)
    (exh : ExhMap) (now : Int) (ctx : TurnCtx) (_currentModel : Option ModelRef) :
    Option (ModelRef × HaGroupEntry) :=
  match cfg? with
  | none => none
  | some cfg =>
    match activeGroup with
    | none => none
    | some g =>
      match alookup cfg.groups g with
      | none => none
      | some group => group.entries.findSome? (entryCandidate exh now ctx)

/-- Modelled from the spec (section 4.4, the claim's reading): locate the index
of the entry matching the current endpoint id by exact id or provider-only
match, treat a missing match as index `-1`, and scan circularly starting at
the entry immediately after the current one, for at most `entries.length`
steps, with the source's per-entry checks.  Kept for comparison with
`findNextAvailableProvider`. -/
def nextEndpointSpec (entries : List HaGroupEntry) (currentEndpointId : Str)
    (exh : ExhMap) (now : Int) (ctx : TurnCtx) : Option (ModelRef × HaGroupEntry) :=
  let idx? := entries.findIdx? (fun e =>
    e.id = currentEndpointId || e.id = (parseEntryId currentEndpointId).provider)
  let start :=
    match idx? with
    | none => 0
    | some i => (i + 1) % entries.length
  (List.range entries.length).findSome? (fun k =>
    entryCandidate exh now ctx (entries.getD ((start + k) % entries.length) default))

-- ==========================================================================
-- The turn_end handler
-- ==========================================================================

def sMessage : String := "message"

def sUser : String := "user"

def sAssistant : String := "assistant"

def sError : String := "error"

structure EventMsg where
  role : Str
  stopReason : Option Str
  errorMessage : Option Str
deriving DecidableEq, Repr

structure TurnEvent where
  message : Option EventMsg
deriving DecidableEq, Repr

/-- The engine's mutable state as touched by the handler. -/
structure HaStateM where
  activeGroup : Option Str
  exhausted : ExhMap
  lastRetryMessage : Option Str
  isRetrying : Bool
  activeCredential : List (Str × Str)
deriving DecidableEq, Repr

/-- What one `turn_end` invocation produces: the post-state (before any
pending 5-second lock-release timer fires), the list of contents passed to
`pi.sendUserMessage`, the model activated through `pi.setModel` (if any), and
the credential switched to (if any). -/
structure TurnOutcome where
  state : HaStateM
  dispatches : List MsgContent
  switchedModel : Option ModelRef
  switchedCredential : Option (Str × Str)
deriving DecidableEq, Repr

def noopOutcome (st : HaStateM) : TurnOutcome := ⟨st, [], none, none⟩

/-- JS truthiness of an optional string. -/
def jsTruthyStr : Option Str → Bool
  | none => false
  | some s => !s.isEmpty

/-- `branch.slice().reverse().find(e => e.type === "message" &&
e.message?.role === "user")`, projected to the message. -/
def findLastUserMessage (branch : List BranchEntry) : Option BranchMsg :=
  (branch.reverse.find? (fun e =>
      e.etype = sMessage.data
        && (match e.message with
            | some m => m.role = sUser.data
            | none => false))).bind (fun e => e.message)

def entryIdOf (m : ModelRef) : Str := m.provider ++ ('/' :: m.id)

/-- Mark the current `provider/model` entry exhausted with the global default
cooldown (the source never consults the per-entry override here). -/
def markCurrentModel (cfg : HaConfig) (st : HaStateM) (now : Int) (ctx : TurnCtx) : HaStateM :=
  match ctx.model with
  | none => st
  | some cm =>
    { st with exhausted :=
        markExhausted st.exhausted now (entryIdOf cm) (globalCooldown cfg) }

/-- The endpoint-rotation tail of the handler: mark the current model, scan the
group, ask the host to switch, and retry the last user message guarded by the
`lastRetryMessage` fingerprint.  A declined switch ends the episode. -/
def endpointPhase (cfg : HaConfig) (st : HaStateM) (now : Int) (ctx : TurnCtx) : TurnOutcome :=
  let st1 := markCurrentModel cfg st now ctx
  match findNextAvailableProvider (some cfg) st1.activeGroup st1.exhausted now ctx ctx.model with
  | none => ⟨st1, [], none, none⟩
  | some (nextModel, _entry) =>
    if ctx.setModelOk nextModel then
      match findLastUserMessage ctx.branch with
      | none => ⟨st1, [], some nextModel, none⟩
      | some um =>
        if st1.lastRetryMessage = some (fingerprint um.content) then
          ⟨st1, [], some nextModel, none⟩
        else
          ⟨{ st1 with
              isRetrying := true,
              lastRetryMessage := some (fingerprint um.content) },
            [um.content], some nextModel, none⟩
    else ⟨st1, [], none, none⟩

/-- The credential-rotation head of the handler: mark the active credential
exhausted, rotate to the next stored credential, and on success dispatch the
last user message with no fingerprint check; on any failure fall through to
the endpoint phase. -/
def credentialPhase (cfg : HaConfig) (st : HaStateM) (now : Int) (ctx : TurnCtx)
    (currentProvider : Str) : TurnOutcome :=
  let currentCredName := jsOrPrimary (alookup st.activeCredential currentProvider)
  let exh1 :=
    markExhausted st.exhausted now (credKey currentProvider currentCredName)
      (globalCooldown cfg)
  let st1 := { st with exhausted := exh1 }
  match getNextCredential cfg st1.activeCredential st1.exhausted now currentProvider with
  | none => endpointPhase cfg st1 now ctx
  | some nextCred =>
    match switchOAuthCredential cfg st1.activeCredential currentProvider nextCred with
    | (false, _) => endpointPhase cfg st1 now ctx
    | (true, ac2) =>
      let st2 := { st1 with activeCredential := ac2 }
      match findLastUserMessage ctx.branch with
      | none => ⟨st2, [], none, some (currentProvider, nextCred)⟩
      | some um =>
        ⟨{ st2 with
            isRetrying := true,
            lastRetryMessage := some (fingerprint um.content) },
          [um.content], none, some (currentProvider, nextCred)⟩

/-- The failover tail after all guards have passed: credential rotation first
when the current provider id is truthy, else endpoint rotation directly. -/
def failoverBody (cfg : HaConfig) (st : HaStateM) (now : Int) (ctx : TurnCtx) : TurnOutcome :=
  match ctx.model with
  | some cm =>
    if cm.provider.isEmpty then endpointPhase cfg st now ctx
    else credentialPhase cfg st now ctx cm.provider
  | none => endpointPhase cfg st now ctx

/-- The `turn_end` handler. -/
def turnEnd (cfg? : Option HaConfig) (st : HaStateM) (now : Int)
    (event : TurnEvent) (ctx : TurnCtx) : TurnOutcome :=
  match cfg? with
  | none => noopOutcome st
  | some cfg =>
    match st.activeGroup with
    | none => noopOutcome st
    | some g =>
      if g.isEmpty then noopOutcome st
      else if st.isRetrying then noopOutcome st
      else
        match event.message with
        | none => noopOutcome st
        | some message =>
          if message.role ≠ sAssistant.data then noopOutcome st
          else
            let hasError :=
              message.stopReason = some sError.data || jsTruthyStr message.errorMessage
            if !hasError then noopOutcome st
            else
              let currentProvider := (ctx.model.map ModelRef.provider)
              if !shouldTriggerFailover message.errorMessage currentProvider then
                noopOutcome st
              else failoverBody cfg st now ctx

-- ==========================================================================
-- Credential sync (syncAuthToHa / credentialsMatch)
-- ==========================================================================

/-- `credentialsMatch(a, b)`: same `type`, then compare the identifying field;
any type other than `oauth` / `api_key` never matches. -/
def credentialsMatch (a b : Cred) : Bool :=
  if a.ctype ≠ b.ctype then false
  else if a.ctype = sOauth.data then a.refresh = b.refresh
  else if a.ctype = sApiKey.data then a.key = b.key
  else false

/-- Fuel-driven helper for `natDigits`; the fuel only needs to dominate the
digit count, and `natDigits` passes `n` itself. -/
def natDigitsAux : Nat → Nat → List Char
  | 0, n => [Nat.digitChar n]
  | fuel + 1, n =>
    if n < 10 then [Nat.digitChar n]
    else natDigitsAux fuel (n / 10) ++ [Nat.digitChar (n % 10)]

/-- Decimal digits of `n`, most significant first (as in `${counter}`). -/
def natDigits (n : Nat) : List Char := natDigitsAux n n

def backupName (c : Nat) : Str := sBackupDash.data ++ natDigits c

/-- The result of `let counter = 1; while (entries[`backup-${counter}`])
counter++`: the first free counter.  Among `backup-1 … backup-(len+1)` one is
always free (`freshCounter_free` below), so the fallback arm is dead. -/
def freshCounter (entries : CredMap) : Nat :=
  match (List.range (entries.length + 1)).find?
      (fun i => (alookup entries (backupName (i + 1))).isNone) with
  | some i => i + 1
  | none => entries.length + 2

/-- The unique name `syncAuthToHa` stores a fresh credential under:
`primary` when free, else the first free `backup-N`. -/
def chosenName (entries : CredMap) : Str :=
  if (alookup entries sPrimary.data).isNone then sPrimary.data
  else backupName (freshCounter entries)

/-- One provider's step of `syncAuthToHa`: keep the store when a stored
credential already matches, else add the credential under a fresh name. -/
def syncOne (store : CredStore) (providerId : Str) (credentials : Cred) : CredStore :=
  let entries := (alookup store providerId).getD []
  if entries.any (fun nc => credentialsMatch credentials nc.2) then store
  else aset store providerId (aset entries (chosenName entries) credentials)

/-- `syncAuthToHa()`: fold the auth file's entries over the stored credential
set. -/
def syncAuthToHa (auth : List (Str × Cred)) (store : CredStore) : CredStore :=
  auth.foldl (fun st pc => syncOne st pc.1 pc.2) store

/-- The credential types `credentialsMatch` can ever report as equal. -/
def goodCredType (c : Cred) : Prop :=
  c.ctype = sOauth.data ∨ c.ctype = sApiKey.data

instance (c : Cred) : Decidable (goodCredType c) := by
  unfold goodCredType; infer_instance

/-- Decimal value of a digit character. -/
def digitVal (c : Char) : Nat := c.toNat - 48

def digitsVal (l : List Char) : Nat := l.foldl (fun a c => 10 * a + digitVal c) 0

-- ==========================================================================
-- Characterization helpers for the two rotation scans
-- ==========================================================================

/-- The start index of `getNextCredential`'s circular scan: right after the
active name, or `0` when the active name is absent (JS `indexOf` = `-1`). -/
def credStart (names : List Str) (current : Str) : Nat :=
  match names.findIdx? (fun n => n = current) with
  | none => 0
  | some i => (i + 1) % names.length

/-- The credential names in the order the circular scan visits them. -/
def credScanList (names : List Str) (current : Str) : List Str :=
  (List.range names.length).map
    (fun i => names.getD ((credStart names current + i) % names.length) [])

/-- The per-name acceptance test of the credential scan. -/
def credOk (exh : ExhMap) (now : Int) (providerId current : Str) (n : Str) : Bool :=
  n ≠ current && !isExhaustedP exh now (credKey providerId n)

-- ==========================================================================
-- Concrete fixtures used by counterexamples and witnesses
-- ==========================================================================

def fxP1 : String := "p1"

def fxP2 : String := "p2"

def fxP0 : String := "p0"

def fxM1 : String := "m1"

def fxM2 : String := "m2"

def fxM0 : String := "m0"

def fxP1M1 : String := "p1/m1"

def fxP2M2 : String := "p2/m2"

def fxHello : String := "hello"

def fxG : String := "g"

def fxTokA : String := "tok-a"

def fxTokB : String := "tok-b"

def fxOtherType : String := "token"

def fxCredA : Cred := ⟨sOauth.data, some fxTokA.data, none, []⟩

def fxCredB : Cred := ⟨sOauth.data, some fxTokB.data, none, []⟩

def fxCredOther : Cred := ⟨fxOtherType.data, some fxTokA.data, none, []⟩

def fxEntriesP1 : CredMap := [(sPrimary.data, fxCredA), (backupName 1, fxCredB)]

def fxStoreCred : CredStore := [(fxP1.data, fxEntriesP1)]

/-- Config with two stored credentials for `p1` and no groups consulted. -/
def fxCfgCred : HaConfig := ⟨[], none, none, some fxStoreCred⟩

def fxModel0 : ModelRef := ⟨fxP0.data, fxM0.data⟩

def fxModel1 : ModelRef := ⟨fxP1.data, fxM1.data⟩

def fxModel2 : ModelRef := ⟨fxP2.data, fxM2.data⟩

def fxBranch : List BranchEntry :=
  [⟨sMessage.data, some ⟨sUser.data, MsgContent.str fxHello.data⟩⟩]

/-- An assistant turn that failed with a `429` error. -/
def fxEvent : TurnEvent :=
  ⟨some ⟨sAssistant.data, some sError.data, some p429.data⟩⟩

/-- State whose `lastRetryMessage` fingerprint equals the last user message. -/
def fxStFp : HaStateM := ⟨some fxG.data, [], some fxHello.data, false, []⟩

def fxStFresh : HaStateM := ⟨some fxG.data, [], none, false, []⟩

def fxStRetrying : HaStateM := ⟨some fxG.data, [], none, true, []⟩

/-- Context with no available models: only the credential path can act. -/
def fxCtxCred : TurnCtx :=
  ⟨some fxModel1, [], fun _ => false, fun _ => false, fxBranch⟩

def fxEntry1 : HaGroupEntry := ⟨fxP1M1.data, some 1800000⟩

def fxEntry2 : HaGroupEntry := ⟨fxP2M2.data, none⟩

def fxGroup : HaGroup := ⟨fxG.data, [fxEntry1, fxEntry2]⟩

/-- Config with one two-entry group, a global default cooldown of 3600000 ms,
a per-entry override of 1800000 ms on the first entry, and no credentials. -/
def fxCfgGroup : HaConfig := ⟨[(fxG.data, fxGroup)], none, some 3600000, none⟩

def fxAvail : List ModelRef := [fxModel1, fxModel2]

/-- Host accepts a switch only to provider `p2`. -/
def fxCtxSwitch : TurnCtx :=
  ⟨some fxModel1, fxAvail, fun _ => true, fun m => m.provider = fxP2.data, fxBranch⟩

/-- Host declines every switch. -/
def fxCtxDecline : TurnCtx :=
  ⟨some fxModel1, fxAvail, fun _ => true, fun _ => false, fxBranch⟩

/-- Current model `p0/m0` is outside the group; the host would accept `p2`
but declines `p1`, the scan's first find. -/
def fxCtxC4 : TurnCtx :=
  ⟨some fxModel0, fxAvail, fun _ => true, fun m => m.provider = fxP2.data, fxBranch⟩

/-- Everything available and activatable; used to compare scan orders. -/
def fxCtxScan : TurnCtx :=
  ⟨some fxModel1, fxAvail, fun _ => true, fun _ => true, []⟩

def fxAuthOther : List (Str × Cred) := [(fxP1.data, fxCredOther)]

def fxAuthGood : List (Str × Cred) := [(fxP1.data, fxCredA)]

def fxStoreB : CredStore := [(fxP1.data, [(backupName 1, fxCredB)])]

/-- A message matching both a quota pattern and a capacity pattern. -/
def fxBothMsg : String := "429 no capacity available"

/-- An entry id with two slash separators. -/
def fxMulti : String := "a/b/c"

/-- A digit string for the terminal Gemini message. -/
def fxThree : String := "3"

/-- An intermediate Gemini capacity message. -/
def fxIntermediateMsg : String := "no capacity available for model x"

/-- Some credential stored for provider `p` matches `c`. -/
def hasMatchFor (store : CredStore) (p : Str) (c : Cred) : Prop :=
  ∃ m, alookup store p = some m ∧ ∃ nc ∈ m, credentialsMatch c nc.2 = true

-- ==========================================================================
-- Association-list and registry lemmas
-- ==========================================================================

lemma alookup_aset_self {β : Type} (m : List (Str × β)) (k : Str) (v : β) :
    alookup (aset m k v) k = some v := by
  induction m with
  | nil => simp [aset, alookup]
  | cons hd tl ih =>
    obtain ⟨a, b⟩ := hd
    by_cases h : a = k
    · simp [aset, alookup, h]
    · simp [aset, alookup, h, ih]

lemma alookup_aset_ne {β : Type} (m : List (Str × β)) (k k2 : Str) (v : β)
    (h : k2 ≠ k) : alookup (aset m k v) k2 = alookup m k2 := by
  have hk : ¬ k = k2 := fun hh => h hh.symm
  induction m with
  | nil => simp [aset, alookup, hk]
  | cons hd tl ih =>
    obtain ⟨a, b⟩ := hd
    by_cases ha : a = k
    · subst ha
      simp [aset, alookup, hk]
    · simp [aset, alookup, ha, ih]

lemma alookup_adel_ne {β : Type} (m : List (Str × β)) (k k2 : Str)
    (h : k2 ≠ k) : alookup (adel m k) k2 = alookup m k2 := by
  have hk : ¬ k = k2 := fun hh => h hh.symm
  induction m with
  | nil => simp [adel]
  | cons hd tl ih =>
    obtain ⟨a, b⟩ := hd
    by_cases ha : a = k
    · subst ha
      simp [adel, alookup, hk]
    · simp [adel, alookup, ha, ih]

lemma isExhausted_fst (m : ExhMap) (now : Int) (k : Str) :
    (isExhausted m now k).1 = isExhaustedP m now k := by
  unfold isExhausted isExhaustedP
  cases h : alookup m k with
  | none => rfl
  | some e =>
    dsimp only
    by_cases hc : now - e.exhaustedAt ≥ e.cooldownMs
    · rw [if_pos hc]
      have hnot : ¬ (now - e.exhaustedAt < e.cooldownMs) := by omega
      simp [hnot]
    · rw [if_neg hc]
      have hlt : now - e.exhaustedAt < e.cooldownMs := by omega
      simp [hlt]

lemma alookup_append_some {β : Type} (m l : List (Str × β)) (k : Str) (v : β)
    (h : alookup m k = some v) : alookup (m ++ l) k = some v := by
  induction m with
  | nil => simp [alookup] at h
  | cons hd tl ih =>
    obtain ⟨a, b⟩ := hd
    by_cases ha : a = k
    · simp [alookup, ha] at h ⊢
      exact h
    · simp [alookup, ha] at h ⊢
      exact ih h

lemma aset_of_alookup_none {β : Type} (m : List (Str × β)) (k : Str) (v : β)
    (h : alookup m k = none) : aset m k v = m ++ [(k, v)] := by
  induction m with
  | nil => rfl
  | cons hd tl ih =>
    obtain ⟨a, b⟩ := hd
    by_cases ha : a = k
    · simp [alookup, ha] at h
    · simp [alookup, ha] at h
      simp [aset, ha, ih h]

-- ==========================================================================
-- C6: exhaustion timing semantics
-- ==========================================================================

/-- C6: `markExhausted(k, c)` followed immediately by `isExhausted(k)` is true
for `c > 0`; once time `≥ c` has elapsed it is false; a zero or negative
cooldown is never exhausted; a never-marked key is never exhausted. -/
theorem exhaustionTiming_c6 (m : ExhMap) (k : Str) (c t t2 : Int) :
    (0 < c → (isExhausted (markExhausted m t k c) t k).1 = true)
    ∧ (c ≤ t2 - t → (isExhausted (markExhausted m t k c) t2 k).1 = false)
    ∧ (c ≤ 0 → t ≤ t2 → (isExhausted (markExhausted m t k c) t2 k).1 = false)
    ∧ (alookup m k = none → (isExhausted m t k).1 = false) := by
  refine ⟨?_, ?_, ?_, ?_⟩
  · intro hc
    unfold isExhausted markExhausted
    rw [alookup_aset_self]
    dsimp only
    rw [if_neg (by omega)]
  · intro hc
    unfold isExhausted markExhausted
    rw [alookup_aset_self]
    dsimp only
    rw [if_pos (by omega)]
  · intro hc ht
    unfold isExhausted markExhausted
    rw [alookup_aset_self]
    dsimp only
    rw [if_pos (by omega)]
  · intro h
    unfold isExhausted
    rw [h]

theorem exhaustionTiming_c6_witness :
    ((isExhausted (markExhausted [] 0 fxP1.data 5) 0 fxP1.data).1 = true)
    ∧ ((isExhausted (markExhausted [] 0 fxP1.data 5) 5 fxP1.data).1 = false)
    ∧ ((isExhausted (markExhausted [] 0 fxP1.data (-1)) 3 fxP1.data).1 = false)
    ∧ ((isExhausted [] 7 fxP1.data).1 = false) :=
  ⟨(exhaustionTiming_c6 [] fxP1.data 5 0 0).1 (by decide),
   (exhaustionTiming_c6 [] fxP1.data 5 0 5).2.1 (by decide),
   (exhaustionTiming_c6 [] fxP1.data (-1) 0 3).2.2.1 (by decide) (by decide),
   (exhaustionTiming_c6 [] fxP1.data 0 7 7).2.2.2 rfl⟩

-- ==========================================================================
-- C5: cooldown selection on exhaustion
-- ==========================================================================

/-- C5: with a per-entry override of 1800000 ms on the matching group entry
and a global default of 3600000 ms, a quota failure on that endpoint records
an exhaustion entry carrying the global default — the override that
`getCooldownMs` would select is never consulted by the marking sites. -/
theorem cooldownSelection_c5_bug :
    alookup (turnEnd (some fxCfgGroup) fxStFresh 0 fxEvent fxCtxSwitch).state.exhausted
        fxEntry1.id = some ⟨fxEntry1.id, 0, 3600000⟩
    ∧ fxEntry1.cooldownMs = some 1800000
    ∧ getCooldownMs fxEntry1.cooldownMs (globalCooldown fxCfgGroup) = 1800000
    ∧ (3600000 : Int) ≠ 1800000 := by decide

-- ==========================================================================
-- C8: quota precedence in classification
-- ==========================================================================

/-- C8: a text matching a quota pattern classifies as Quota regardless of the
provider, also when a capacity pattern matches as well, because quota is
evaluated first; and the classifier agrees with `shouldTriggerFailover`. -/
theorem quotaPrecedence_c8 (msg provider : Option Str) :
    (shouldTriggerFailover msg provider = true
      ↔ classifySpec msg provider ≠ ErrClass.noFailure)
    ∧ (isQuotaError msg = true →
        classifySpec msg provider = ErrClass.quota
          ∧ shouldTriggerFailover msg provider = true)
    ∧ (isQuotaError msg = true → isCapacityError msg provider = true →
        classifySpec msg provider = ErrClass.quota) := by
  unfold shouldTriggerFailover classifySpec
  by_cases hq : isQuotaError msg = true
  · simp [hq]
  · by_cases hc : isCapacityError msg provider = true
    · simp [hq, hc]
    · simp [hq, hc]

theorem quotaPrecedence_c8_witness :
    classifySpec (some fxBothMsg.data) (some fxP1.data) = ErrClass.quota
    ∧ isCapacityError (some fxBothMsg.data) (some fxP1.data) = true :=
  ⟨(quotaPrecedence_c8 (some fxBothMsg.data) (some fxP1.data)).2.2
      (by decide) (by decide),
   by decide⟩

end HA


namespace HA

-- ==========================================================================
-- C9: entry-id parsing
-- ==========================================================================

lemma splitSlash_ne_nil (l : Str) : splitSlash l ≠ [] := by
  induction l with
  | nil => simp [splitSlash]
  | cons c rest ih =>
    by_cases h : c = '/'
    · simp [splitSlash, h]
    · simp only [splitSlash]
      rw [if_neg h]
      cases hs : splitSlash rest <;> simp

lemma splitSlash_length (l : Str) : (splitSlash l).length = l.count '/' + 1 := by
  induction l with
  | nil => simp [splitSlash]
  | cons c rest ih =>
    by_cases h : c = '/'
    · subst h
      simp [splitSlash, List.count_cons, ih]
    · simp only [splitSlash]
      rw [if_neg h]
      cases hs : splitSlash rest with
      | nil => exact absurd hs (splitSlash_ne_nil rest)
      | cons p ps =>
        rw [hs] at ih
        simp only [List.length_cons] at ih ⊢
        rw [List.count_cons]
        have hbe : (c == '/') = false := by simp [h]
        rw [hbe]
        simp
        omega

lemma splitSlash_singleton (l : Str) : ∀ b, splitSlash l = [b] → l = b ∧ '/' ∉ b := by
  induction l with
  | nil =>
    intro b h
    simp [splitSlash] at h
    subst h
    simp
  | cons c rest ih =>
    intro b h
    by_cases hc : c = '/'
    · subst hc
      simp only [splitSlash] at h
      simp at h
      exact absurd h.2 (splitSlash_ne_nil rest)
    · simp only [splitSlash] at h
      rw [if_neg hc] at h
      cases hs : splitSlash rest with
      | nil => exact absurd hs (splitSlash_ne_nil rest)
      | cons p ps =>
        rw [hs] at h
        simp at h
        obtain ⟨hb, hps⟩ := h
        subst hps
        obtain ⟨hrest, hnp⟩ := ih p hs
        subst hrest
        subst hb
        refine ⟨rfl, ?_⟩
        simp
        exact ⟨fun hh => hc hh.symm, hnp⟩

lemma splitSlash_pair (l : Str) : ∀ a b, splitSlash l = [a, b] →
    l = a ++ '/' :: b ∧ '/' ∉ a ∧ '/' ∉ b := by
  induction l with
  | nil =>
    intro a b h
    simp [splitSlash] at h
  | cons c rest ih =>
    intro a b h
    by_cases hc : c = '/'
    · subst hc
      simp only [splitSlash] at h
      simp at h
      obtain ⟨ha, hrest⟩ := h
      obtain ⟨hb, hnb⟩ := splitSlash_singleton rest b hrest
      subst hb
      subst ha
      simp [hnb]
    · simp only [splitSlash] at h
      rw [if_neg hc] at h
      cases hs : splitSlash rest with
      | nil => exact absurd hs (splitSlash_ne_nil rest)
      | cons p ps =>
        rw [hs] at h
        simp at h
        obtain ⟨ha, hps⟩ := h
        subst hps
        obtain ⟨hrest, hnp, hnb⟩ := ih p b hs
        subst hrest
        subst ha
        refine ⟨rfl, ?_, hnb⟩
        simp
        exact ⟨fun hh => hc hh.symm, hnp⟩

/-- C9: an id with two or more slashes is returned whole as the provider with
no model id; exactly one slash splits into `(provider, modelId)`; zero slashes
is provider-only; and a model id is produced only in the one-slash case. -/
theorem parseEntryId_c9 (l : Str) :
    (2 ≤ l.count '/' → parseEntryId l = ⟨l, none⟩)
    ∧ (l.count '/' = 1 →
        ∃ a b, '/' ∉ a ∧ '/' ∉ b ∧ l = a ++ '/' :: b
          ∧ parseEntryId l = ⟨a, some b⟩)
    ∧ (l.count '/' = 0 → parseEntryId l = ⟨l, none⟩)
    ∧ ((parseEntryId l).modelId.isSome = true → l.count '/' = 1) := by
  have hlen := splitSlash_length l
  refine ⟨?_, ?_, ?_, ?_⟩
  · intro h2
    unfold parseEntryId
    split
    · next a b heq =>
      rw [heq] at hlen
      simp at hlen
      omega
    · rfl
  · intro h1
    have hl2 : (splitSlash l).length = 2 := by omega
    obtain ⟨a, b, hs⟩ : ∃ a b, splitSlash l = [a, b] := by
      cases hsp : splitSlash l with
      | nil => rw [hsp] at hl2; simp at hl2
      | cons x t =>
        cases t with
        | nil => rw [hsp] at hl2; simp at hl2
        | cons y t2 =>
          cases t2 with
          | nil => exact ⟨x, y, rfl⟩
          | cons z t3 => rw [hsp] at hl2; simp at hl2
    obtain ⟨hl, hna, hnb⟩ := splitSlash_pair l a b hs
    refine ⟨a, b, hna, hnb, hl, ?_⟩
    unfold parseEntryId
    rw [hs]
  · intro h0
    unfold parseEntryId
    split
    · next a b heq =>
      rw [heq] at hlen
      simp at hlen
      omega
    · rfl
  · intro h
    unfold parseEntryId at h
    split at h
    · next a b heq =>
      rw [heq] at hlen
      simp at hlen
      omega
    · simp at h

theorem parseEntryId_c9_witness :
    parseEntryId fxMulti.data = ⟨fxMulti.data, none⟩
    ∧ (∃ a b, '/' ∉ a ∧ '/' ∉ b ∧ fxP1M1.data = a ++ '/' :: b
        ∧ parseEntryId fxP1M1.data = ⟨a, some b⟩) :=
  ⟨(parseEntryId_c9 fxMulti.data).1 (by decide),
   (parseEntryId_c9 fxP1M1.data).2.1 (by decide)⟩

end HA

namespace HA

-- ==========================================================================
-- C3: Gemini-family classification asymmetry
-- ==========================================================================

lemma isPrefixOf_append_self (l r : Str) : l.isPrefixOf (l ++ r) = true := by
  induction l with
  | nil => cases r <;> rfl
  | cons c t ih => simp [List.isPrefixOf, ih]

lemma digit_toLower : ∀ c ∈ decimalDigits.data, Char.toLower c = c := by decide

lemma digit_isDigit : ∀ c ∈ decimalDigits.data, c.isDigit = true := by decide

lemma lowerStr_append (a b : Str) : lowerStr (a ++ b) = lowerStr a ++ lowerStr b :=
  List.map_append _ _ _

lemma lowerStr_digits (ds : Str) (h : ∀ c ∈ ds, c ∈ decimalDigits.data) :
    lowerStr ds = ds := by
  induction ds with
  | nil => rfl
  | cons c t ih =>
    simp only [lowerStr, List.map_cons]
    rw [digit_toLower c (h c (by simp))]
    have := ih (fun x hx => h x (by simp [hx]))
    simp only [lowerStr] at this
    rw [this]

lemma lowerStr_terminalMsg (ds : Str) (h : ∀ c ∈ ds, c ∈ decimalDigits.data) :
    lowerStr (terminalMsg ds) = terminalMsg ds := by
  unfold terminalMsg
  rw [lowerStr_append, lowerStr_append, lowerStr_digits ds h]
  have h1 : lowerStr pRetryFailedAfter.data = pRetryFailedAfter.data := by decide
  have h2 : lowerStr pAttempts.data = pAttempts.data := by decide
  rw [h1, h2]

lemma moreDigits_attempts (ds : Str) (h : ∀ c ∈ ds, c ∈ decimalDigits.data) :
    moreDigitsThenAttempts (ds ++ pAttempts.data) = true := by
  induction ds with
  | nil =>
    show moreDigitsThenAttempts pAttempts.data = true
    decide
  | cons c t ih =>
    simp only [List.cons_append, moreDigitsThenAttempts, List.append_eq]
    rw [digit_isDigit c (h c (by simp))]
    rw [ih (fun x hx => h x (by simp [hx]))]
    simp

lemma geminiFinalTest_terminal (ds : Str) (hne : ds ≠ [])
    (h : ∀ c ∈ ds, c ∈ decimalDigits.data) :
    geminiFinalTest (terminalMsg ds) = true := by
  have hat : geminiFinalAt (terminalMsg ds) = true := by
    unfold geminiFinalAt terminalMsg
    rw [List.append_assoc, isPrefixOf_append_self, List.drop_left]
    simp only [Bool.true_and]
    cases ds with
    | nil => exact absurd rfl hne
    | cons c t =>
      simp only [List.cons_append, digitsThenAttempts, List.append_eq]
      rw [digit_isDigit c (h c (by simp))]
      rw [moreDigits_attempts t (fun x hx => h x (by simp [hx]))]
      simp
  cases hm : terminalMsg ds with
  | nil =>
    rw [hm] at hat
    exact absurd hat (by decide)
  | cons c t =>
    rw [hm] at hat
    simp [geminiFinalTest, hat]

/-- C3 (amended): for a Gemini-family provider id, an intermediate
`no capacity available` message that does not match the terminal pattern is
not a capacity failure (and classifies as no-failure when no quota pattern
matches); the terminal `retry failed after N attempts` message passes the
capacity test for every digit string N, and classifies as Capacity whenever
no quota pattern matches it. -/
theorem geminiAsymmetry_c3_amended (pid msg ds : Str)
    (hprov : providerIsGemini (some pid) = true) :
    ((containsSub pNoCapacity.data (lowerStr msg) = true →
      geminiFinalTest (lowerStr msg) = false →
      isCapacityError (some msg) (some pid) = false
        ∧ (isQuotaError (some msg) = false →
            classifySpec (some msg) (some pid) = ErrClass.noFailure)))
    ∧ (ds ≠ [] → (∀ c ∈ ds, c ∈ decimalDigits.data) →
        isCapacityError (some (terminalMsg ds)) (some pid) = true
          ∧ (isQuotaError (some (terminalMsg ds)) = false →
              classifySpec (some (terminalMsg ds)) (some pid) = ErrClass.capacity)) := by
  constructor
  · intro hnc hfin
    have hcap : isCapacityError (some msg) (some pid) = false := by
      unfold isCapacityError
      dsimp only
      by_cases hme : msg.isEmpty = true
      · simp [hme]
      · simp [hme, hprov, hfin, hnc]
    refine ⟨hcap, ?_⟩
    intro hq
    simp [classifySpec, hq, hcap]
  · intro hne hds
    have hfin := geminiFinalTest_terminal ds hne hds
    have hlow := lowerStr_terminalMsg ds hds
    have hempty : (terminalMsg ds).isEmpty = false := rfl
    have hcap : isCapacityError (some (terminalMsg ds)) (some pid) = true := by
      unfold isCapacityError
      dsimp only
      simp [hempty, hprov, hlow, hfin]
    refine ⟨hcap, ?_⟩
    intro hq
    simp [classifySpec, hq, hcap]

/-- C3 (counterexample): the terminal message with N = 429 matches the quota
pattern `429`, so quota precedence classifies it as Quota, not Capacity. -/
theorem geminiAsymmetry_c3_counterexample :
    providerIsGemini (some pGemini.data) = true
    ∧ geminiFinalTest (lowerStr (terminalMsg p429.data)) = true
    ∧ isCapacityError (some (terminalMsg p429.data)) (some pGemini.data) = true
    ∧ classifySpec (some (terminalMsg p429.data)) (some pGemini.data) = ErrClass.quota
    ∧ ErrClass.quota ≠ ErrClass.capacity := by decide

theorem geminiAsymmetry_c3_witness :
    isCapacityError (some fxIntermediateMsg.data) (some pGemini.data) = false
    ∧ classifySpec (some fxIntermediateMsg.data) (some pGemini.data) = ErrClass.noFailure
    ∧ isCapacityError (some (terminalMsg fxThree.data)) (some pGemini.data) = true
    ∧ classifySpec (some (terminalMsg fxThree.data)) (some pGemini.data) = ErrClass.capacity := by
  obtain ⟨hA, hB⟩ :=
    geminiAsymmetry_c3_amended pGemini.data fxIntermediateMsg.data fxThree.data (by decide)
  obtain ⟨h1, h2⟩ := hA (by decide) (by decide)
  obtain ⟨h3, h4⟩ := hB (by decide) (by decide)
  exact ⟨h1, h2 (by decide), h3, h4 (by decide)⟩

end HA

namespace HA

-- ==========================================================================
-- C2: endpoint rotation scan order
-- ==========================================================================

lemma findSome_eq_none_iff {α β : Type} (f : α → Option β) (l : List α) :
    l.findSome? f = none ↔ ∀ a ∈ l, f a = none := by
  induction l with
  | nil => simp
  | cons a t ih =>
    rw [List.findSome?_cons]
    cases hf : f a with
    | some b => simp [hf]
    | none => simp [hf, ih]

lemma findSome_eq_some_split {α β : Type} (f : α → Option β) (l : List α) (b : β)
    (h : l.findSome? f = some b) :
    ∃ l1 a l2, l = l1 ++ a :: l2 ∧ f a = some b ∧ ∀ x ∈ l1, f x = none := by
  induction l with
  | nil => simp at h
  | cons a t ih =>
    rw [List.findSome?_cons] at h
    cases hf : f a with
    | some c =>
      rw [hf] at h
      obtain rfl : c = b := by simpa using h
      exact ⟨[], a, t, by simp, hf, by simp⟩
    | none =>
      rw [hf] at h
      obtain ⟨l1, x, l2, hl, hx, hnone⟩ := ih h
      refine ⟨a :: l1, x, l2, by simp [hl], hx, ?_⟩
      intro y hy
      rcases List.mem_cons.mp hy with hya | hmem
      · rw [hya]
        exact hf
      · exact hnone y hmem

lemma entryCandidate_snd (exh : ExhMap) (now : Int) (ctx : TurnCtx)
    (entry : HaGroupEntry) (m : ModelRef) (e : HaGroupEntry)
    (h : entryCandidate exh now ctx entry = some (m, e)) : e = entry := by
  unfold entryCandidate at h
  dsimp only at h
  split at h
  · exact absurd h (by simp)
  · split at h
    · exact absurd h (by simp)
    · split at h
      · exact absurd h (by simp)
      · split at h
        · simp only [Option.some.injEq, Prod.mk.injEq] at h
          exact h.2.symm
        · exact absurd h (by simp)

/-- C2 (amended): `findNextAvailableProvider` ignores the current endpoint
entirely and scans the group's entries linearly from the first entry, in
priority order, examining each entry at most once (at most `entries.length`
candidates) and returning the first entry that passes the per-entry checks;
when none passes it gives up with no result. -/
theorem endpointScan_c2_amended (cfg : HaConfig) (g : Str) (group : HaGroup)
    (exh : ExhMap) (now : Int) (ctx : TurnCtx) (cm cm2 : Option ModelRef)
    (hg : alookup cfg.groups g = some group) :
    (findNextAvailableProvider (some cfg) (some g) exh now ctx cm
       = findNextAvailableProvider (some cfg) (some g) exh now ctx cm2)
    ∧ (findNextAvailableProvider (some cfg) (some g) exh now ctx cm = none
         ↔ ∀ e ∈ group.entries, entryCandidate exh now ctx e = none)
    ∧ (∀ m e, findNextAvailableProvider (some cfg) (some g) exh now ctx cm = some (m, e) →
        e ∈ group.entries
        ∧ ∃ l1 l2, group.entries = l1 ++ e :: l2
            ∧ entryCandidate exh now ctx e = some (m, e)
            ∧ ∀ x ∈ l1, entryCandidate exh now ctx x = none) := by
  have hred : findNextAvailableProvider (some cfg) (some g) exh now ctx cm
      = group.entries.findSome? (entryCandidate exh now ctx) := by
    unfold findNextAvailableProvider
    dsimp only
    rw [hg]
  have hred2 : findNextAvailableProvider (some cfg) (some g) exh now ctx cm2
      = group.entries.findSome? (entryCandidate exh now ctx) := by
    unfold findNextAvailableProvider
    dsimp only
    rw [hg]
  refine ⟨by rw [hred, hred2], ?_, ?_⟩
  · rw [hred]
    exact findSome_eq_none_iff _ _
  · intro m e hs
    rw [hred] at hs
    obtain ⟨l1, a, l2, hl, ha, hnone⟩ := findSome_eq_some_split _ _ _ hs
    obtain rfl : e = a := entryCandidate_snd exh now ctx a m e ha
    refine ⟨by rw [hl]; simp, l1, l2, hl, ha, hnone⟩

/-- C2 (counterexample): with every entry available and activatable and the
current endpoint matching the first entry, the source scan returns the first
entry — the current endpoint itself — while the claimed circular scan
starting immediately after the current entry returns the second entry. -/
theorem endpointScan_c2_counterexample :
    findNextAvailableProvider (some fxCfgGroup) (some fxG.data) [] 0 fxCtxScan (some fxModel1)
        = some (fxModel1, fxEntry1)
    ∧ fxEntry1.id = entryIdOf fxModel1
    ∧ nextEndpointSpec fxGroup.entries (entryIdOf fxModel1) [] 0 fxCtxScan
        = some (fxModel2, fxEntry2)
    ∧ (some (fxModel1, fxEntry1) : Option (ModelRef × HaGroupEntry))
        ≠ some (fxModel2, fxEntry2) := by
  decide

theorem endpointScan_c2_witness :
    (findNextAvailableProvider (some fxCfgGroup) (some fxG.data) [] 0 fxCtxScan (some fxModel1)
       = findNextAvailableProvider (some fxCfgGroup) (some fxG.data) [] 0 fxCtxScan none)
    ∧ (fxEntry1 ∈ fxGroup.entries
        ∧ ∃ l1 l2, fxGroup.entries = l1 ++ fxEntry1 :: l2
            ∧ entryCandidate [] 0 fxCtxScan fxEntry1 = some (fxModel1, fxEntry1)
            ∧ ∀ x ∈ l1, entryCandidate [] 0 fxCtxScan x = none) :=
  ⟨(endpointScan_c2_amended fxCfgGroup fxG.data fxGroup [] 0 fxCtxScan
      (some fxModel1) none (by decide)).1,
   (endpointScan_c2_amended fxCfgGroup fxG.data fxGroup [] 0 fxCtxScan
      (some fxModel1) none (by decide)).2.2 fxModel1 fxEntry1 (by decide)⟩

end HA

namespace HA

-- ==========================================================================
-- C4: activation failure ends the episode
-- ==========================================================================

/-- C4 (amended): when the host declines the model switch for the candidate
the scan selected, the handler ends the failover episode immediately — no
dispatch, no activated model, and no further group entries are examined. -/
theorem activationDecline_c4_amended (cfg : HaConfig) (st : HaStateM) (now : Int)
    (ctx : TurnCtx) (m : ModelRef) (e : HaGroupEntry)
    (hfind : findNextAvailableProvider (some cfg)
        (markCurrentModel cfg st now ctx).activeGroup
        (markCurrentModel cfg st now ctx).exhausted now ctx ctx.model = some (m, e))
    (hdecline : ctx.setModelOk m = false) :
    endpointPhase cfg st now ctx = ⟨markCurrentModel cfg st now ctx, [], none, none⟩ := by
  unfold endpointPhase
  dsimp only
  rw [hfind]
  dsimp only
  rw [hdecline]
  simp

/-- C4 (counterexample): the scan selects `p1/m1`, the host declines it, and
although the remaining entry `p2/m2` resolves to a candidate the host would
accept, the handler ends the episode with no dispatch and no switch. -/
theorem activationDecline_c4_counterexample :
    findNextAvailableProvider (some fxCfgGroup)
        (markCurrentModel fxCfgGroup fxStFresh 0 fxCtxC4).activeGroup
        (markCurrentModel fxCfgGroup fxStFresh 0 fxCtxC4).exhausted 0 fxCtxC4 fxCtxC4.model
      = some (fxModel1, fxEntry1)
    ∧ fxCtxC4.setModelOk fxModel1 = false
    ∧ entryCandidate (markCurrentModel fxCfgGroup fxStFresh 0 fxCtxC4).exhausted 0 fxCtxC4
        fxEntry2 = some (fxModel2, fxEntry2)
    ∧ fxCtxC4.setModelOk fxModel2 = true
    ∧ endpointPhase fxCfgGroup fxStFresh 0 fxCtxC4
        = ⟨markCurrentModel fxCfgGroup fxStFresh 0 fxCtxC4, [], none, none⟩ := by
  decide

theorem activationDecline_c4_witness :
    endpointPhase fxCfgGroup fxStFresh 0 fxCtxDecline
      = ⟨markCurrentModel fxCfgGroup fxStFresh 0 fxCtxDecline, [], none, none⟩ :=
  activationDecline_c4_amended fxCfgGroup fxStFresh 0 fxCtxDecline fxModel2 fxEntry2
    (by decide) (by decide)

end HA

namespace HA

-- ==========================================================================
-- C1: retry guards
-- ==========================================================================

lemma markCurrentModel_lastRetry (cfg : HaConfig) (st : HaStateM) (now : Int)
    (ctx : TurnCtx) :
    (markCurrentModel cfg st now ctx).lastRetryMessage = st.lastRetryMessage := by
  unfold markCurrentModel
  cases ctx.model <;> rfl

/-- Every endpoint-phase outcome either dispatches nothing, or dispatches
exactly the last user message once, with the retry lock taken and the
fingerprint check passed. -/
lemma endpointPhase_shape (cfg : HaConfig) (st : HaStateM) (now : Int) (ctx : TurnCtx) :
    (endpointPhase cfg st now ctx).dispatches = []
    ∨ (∃ um, findLastUserMessage ctx.branch = some um
        ∧ st.lastRetryMessage ≠ some (fingerprint um.content)
        ∧ (endpointPhase cfg st now ctx).dispatches = [um.content]
        ∧ (endpointPhase cfg st now ctx).state.isRetrying = true) := by
  unfold endpointPhase
  dsimp only
  split
  · left
    rfl
  · split
    · split
      · left
        rfl
      · next um heq =>
        split
        · left
          rfl
        · next hne =>
          right
          rw [markCurrentModel_lastRetry] at hne
          exact ⟨um, heq, hne, rfl, rfl⟩
    · left
      rfl

/-- Every credential-phase outcome either delegates to the endpoint phase
with an unchanged `lastRetryMessage`, or dispatches nothing, or dispatches
exactly the last user message once with the retry lock taken and no model
switch. -/
lemma credentialPhase_shape (cfg : HaConfig) (st : HaStateM) (now : Int)
    (ctx : TurnCtx) (cp : Str) :
    (∃ stx, stx.lastRetryMessage = st.lastRetryMessage
        ∧ credentialPhase cfg st now ctx cp = endpointPhase cfg stx now ctx)
    ∨ ((credentialPhase cfg st now ctx cp).dispatches = []
        ∧ (credentialPhase cfg st now ctx cp).switchedModel = none)
    ∨ (∃ um, findLastUserMessage ctx.branch = some um
        ∧ (credentialPhase cfg st now ctx cp).dispatches = [um.content]
        ∧ (credentialPhase cfg st now ctx cp).state.isRetrying = true
        ∧ (credentialPhase cfg st now ctx cp).switchedModel = none) := by
  unfold credentialPhase
  dsimp only
  split
  · left
    refine ⟨_, ?_, rfl⟩
    rfl
  · split
    · left
      refine ⟨_, ?_, rfl⟩
      rfl
    · split
      · right
        left
        exact ⟨rfl, rfl⟩
      · next um heq =>
        right
        right
        exact ⟨um, heq, rfl, rfl, rfl⟩

lemma failoverBody_shape (cfg : HaConfig) (st : HaStateM) (now : Int) (ctx : TurnCtx) :
    failoverBody cfg st now ctx = endpointPhase cfg st now ctx
    ∨ ∃ cp, failoverBody cfg st now ctx = credentialPhase cfg st now ctx cp := by
  unfold failoverBody
  split
  · split
    · left
      rfl
    · right
      exact ⟨_, rfl⟩
  · left
    rfl

lemma turnEnd_shape (cfg? : Option HaConfig) (st : HaStateM) (now : Int)
    (event : TurnEvent) (ctx : TurnCtx) :
    turnEnd cfg? st now event ctx = noopOutcome st
    ∨ (st.isRetrying = false ∧ ∃ cfg, cfg? = some cfg
        ∧ turnEnd cfg? st now event ctx = failoverBody cfg st now ctx) := by
  unfold turnEnd
  split
  · left
    rfl
  · next cfg =>
    split
    · left
      rfl
    · split
      · left
        rfl
      · split
        · left
          rfl
        · next hr =>
          split
          · left
            rfl
          · split
            · left
              rfl
            · dsimp only
              split
              · left
                rfl
              · split
                · left
                  rfl
                · right
                  exact ⟨by simpa using hr, cfg, rfl, rfl⟩

/-- C1 (amended): the `isRetrying` guard makes the whole handler a no-op on
both paths; each invocation dispatches at most one message, and a dispatching
invocation leaves `isRetrying` set, so a second event processed before the
lock clears dispatches nothing — two consecutive retry attempts with
identical content produce exactly one dispatch.  The fingerprint guard,
however, holds only on the endpoint-rotation path (a successful `setModel`):
there a last user message equal to `lastRetryMessage` is never dispatched. -/
theorem retryGuard_c1_amended (cfg? : Option HaConfig) (st : HaStateM) (now : Int)
    (event : TurnEvent) (ctx : TurnCtx) :
    (st.isRetrying = true → turnEnd cfg? st now event ctx = noopOutcome st)
    ∧ (turnEnd cfg? st now event ctx).dispatches.length ≤ 1
    ∧ ((turnEnd cfg? st now event ctx).dispatches ≠ [] →
        (turnEnd cfg? st now event ctx).state.isRetrying = true)
    ∧ (∀ um, findLastUserMessage ctx.branch = some um →
        st.lastRetryMessage = some (fingerprint um.content) →
        (turnEnd cfg? st now event ctx).switchedModel.isSome = true →
        (turnEnd cfg? st now event ctx).dispatches = [])
    ∧ ((turnEnd cfg? st now event ctx).dispatches ≠ [] →
        ∀ cfg2 now2 ev2 ctx2,
          (turnEnd cfg2 (turnEnd cfg? st now event ctx).state now2 ev2 ctx2).dispatches
            = []) := by
  have core : ∀ cfg : HaConfig,
      (failoverBody cfg st now ctx).dispatches.length ≤ 1
        ∧ ((failoverBody cfg st now ctx).dispatches ≠ [] →
            (failoverBody cfg st now ctx).state.isRetrying = true) := by
    intro cfg
    rcases failoverBody_shape cfg st now ctx with hb | ⟨cp, hb⟩
    · rw [hb]
      rcases endpointPhase_shape cfg st now ctx with hsh | ⟨um, _, _, hsh, hret⟩
      · rw [hsh]
        simp
      · rw [hsh]
        simp [hret]
    · rw [hb]
      rcases credentialPhase_shape cfg st now ctx cp with ⟨stx2, _, hsh⟩ | ⟨hsh, _⟩ | ⟨um, _, hsh, hret, _⟩
      · rw [hsh]
        rcases endpointPhase_shape cfg stx2 now ctx with hsh2 | ⟨um, _, _, hsh2, hret⟩
        · rw [hsh2]
          simp
        · rw [hsh2]
          simp [hret]
      · rw [hsh]
        simp
      · rw [hsh]
        simp [hret]
  refine ⟨?_, ?_, ?_, ?_, ?_⟩
  · intro hr
    rcases turnEnd_shape cfg? st now event ctx with h | ⟨hfalse, _⟩
    · exact h
    · rw [hr] at hfalse
      exact absurd hfalse (by simp)
  · rcases turnEnd_shape cfg? st now event ctx with h | ⟨_, cfg, _, h⟩
    · rw [h]
      simp [noopOutcome]
    · rw [h]
      exact (core cfg).1
  · intro hd
    rcases turnEnd_shape cfg? st now event ctx with h | ⟨_, cfg, _, h⟩
    · rw [h] at hd
      exact absurd rfl hd
    · rw [h] at hd ⊢
      exact (core cfg).2 hd
  · intro um hum hfp
    rcases turnEnd_shape cfg? st now event ctx with h | ⟨_, cfg, _, h⟩
    · intro _
      rw [h]
      rfl
    · rw [h]
      intro hsw
      rcases failoverBody_shape cfg st now ctx with hb | ⟨cp, hb⟩
      · rw [hb]
        rw [hb] at hsw
        rcases endpointPhase_shape cfg st now ctx with hsh | ⟨um2, hum2, hne, hsh, _⟩
        · exact hsh
        · rw [hum] at hum2
          obtain rfl : um2 = um := by simpa using hum2.symm
          exact absurd hfp hne
      · rw [hb]
        rw [hb] at hsw
        rcases credentialPhase_shape cfg st now ctx cp with ⟨stx2, hlast, hsh⟩ | ⟨hsh, _⟩ | ⟨um2, _, _, _, hnone⟩
        · rw [hsh]
          rw [hsh] at hsw
          rcases endpointPhase_shape cfg stx2 now ctx with hsh2 | ⟨um2, hum2, hne, hsh2, _⟩
          · exact hsh2
          · rw [hum] at hum2
            obtain rfl : um2 = um := by simpa using hum2.symm
            rw [hlast] at hne
            exact absurd hfp hne
        · exact hsh
        · rw [hnone] at hsw
          exact absurd hsw (by simp)
  · intro hd cfg2 now2 ev2 ctx2
    have hret : (turnEnd cfg? st now event ctx).state.isRetrying = true := by
      rcases turnEnd_shape cfg? st now event ctx with h | ⟨_, cfg, _, h⟩
      · rw [h] at hd
        exact absurd rfl hd
      · rw [h] at hd ⊢
        exact (core cfg).2 hd
    rcases turnEnd_shape cfg2 (turnEnd cfg? st now event ctx).state now2 ev2 ctx2 with h | ⟨hfalse, _⟩
    · rw [h]
      rfl
    · rw [hret] at hfalse
      exact absurd hfalse (by simp)

/-- C1 (counterexample): with `isRetrying` false and `lastRetryFingerprint`
equal to the last user message, the credential-rotation path still dispatches
the message — the fingerprint no-op guarantee does not hold on that path. -/
theorem retryGuard_c1_counterexample :
    fxStFp.isRetrying = false
    ∧ (findLastUserMessage fxCtxCred.branch).map (fun m => fingerprint m.content)
        = fxStFp.lastRetryMessage
    ∧ (turnEnd (some fxCfgCred) fxStFp 0 fxEvent fxCtxCred).dispatches
        = [MsgContent.str fxHello.data]
    ∧ (turnEnd (some fxCfgCred) fxStFp 0 fxEvent fxCtxCred).switchedCredential
        = some (fxP1.data, backupName 1) := by
  decide

theorem retryGuard_c1_witness :
    (turnEnd (some fxCfgCred) fxStRetrying 0 fxEvent fxCtxCred = noopOutcome fxStRetrying)
    ∧ ((turnEnd (some fxCfgCred)
          (turnEnd (some fxCfgCred) fxStFresh 0 fxEvent fxCtxCred).state
          1 fxEvent fxCtxCred).dispatches = []) :=
  ⟨(retryGuard_c1_amended (some fxCfgCred) fxStRetrying 0 fxEvent fxCtxCred).1 rfl,
   (retryGuard_c1_amended (some fxCfgCred) fxStFresh 0 fxEvent fxCtxCred).2.2.2.2
      (by decide) (some fxCfgCred) 1 fxEvent fxCtxCred⟩

end HA

namespace HA

-- ==========================================================================
-- C7: credential rotation
-- ==========================================================================

lemma findSome_if_eq_find {α β : Type} (l : List α) (h : α → β) (ok : β → Bool) :
    (l.findSome? (fun a => if ok (h a) then some (h a) else none))
      = (l.map h).find? ok := by
  induction l with
  | nil => rfl
  | cons a t ih =>
    rw [List.findSome?_cons, List.map_cons]
    cases hok : ok (h a)
    · simp [hok, ih]
    · simp [hok]

lemma getD_mem {α : Type} (l : List α) (i : Nat) (d : α) (h : i < l.length) :
    l.getD i d ∈ l := by
  induction l generalizing i with
  | nil => simp at h
  | cons a t ih =>
    cases i with
    | zero => simp
    | succ j =>
      rw [List.getD_cons_succ]
      exact List.mem_cons_of_mem a (ih j (by simpa using h))

lemma credBody_eq (exh : ExhMap) (now : Int) (pid current n : Str) :
    (if n = current then none
     else if isExhaustedP exh now (credKey pid n) then none
     else some n)
      = (if credOk exh now pid current n then some n else none) := by
  unfold credOk
  by_cases h1 : n = current
  · simp [h1]
  · by_cases h2 : isExhaustedP exh now (credKey pid n) = true
    · simp [h1, h2]
    · simp [h1, h2]

lemma credScanList_subset (names : List Str) (current : Str) (hlen : 0 < names.length) :
    ∀ x ∈ credScanList names current, x ∈ names := by
  intro x hx
  unfold credScanList at hx
  obtain ⟨i, _, hxe⟩ := List.mem_map.mp hx
  rw [← hxe]
  exact getD_mem _ _ _ (Nat.mod_lt _ hlen)

/-- C7: `getNextCredential` returns nothing when the provider has no stored
credentials or at most one credential exists; otherwise it equals the first
name in the circular scan order (starting right after the active name) that
is neither the active name nor exhausted under `providerId:name`; in
particular it returns nothing when every alternative is exhausted, and a
returned name is a stored, non-active, non-exhausted credential. -/
theorem credentialRotation_c7 (cfg : HaConfig) (ac : List (Str × Str)) (exh : ExhMap)
    (now : Int) (pid : Str) :
    (cfg.credentials.bind (fun store => alookup store pid) = none →
        getNextCredential cfg ac exh now pid = none)
    ∧ (∀ entries, cfg.credentials.bind (fun store => alookup store pid) = some entries →
        ((entries.map Prod.fst).length ≤ 1 → getNextCredential cfg ac exh now pid = none)
        ∧ (1 < (entries.map Prod.fst).length →
            (getNextCredential cfg ac exh now pid
              = (credScanList (entries.map Prod.fst) (jsOrPrimary (alookup ac pid))).find?
                  (credOk exh now pid (jsOrPrimary (alookup ac pid))))
            ∧ ((∀ n ∈ entries.map Prod.fst, n ≠ jsOrPrimary (alookup ac pid) →
                  isExhaustedP exh now (credKey pid n) = true) →
                getNextCredential cfg ac exh now pid = none)
            ∧ (∀ n, getNextCredential cfg ac exh now pid = some n →
                n ∈ entries.map Prod.fst
                  ∧ n ≠ jsOrPrimary (alookup ac pid)
                  ∧ isExhaustedP exh now (credKey pid n) = false))) := by
  constructor
  · intro h
    unfold getNextCredential
    cases hs : cfg.credentials with
    | none => rfl
    | some store =>
      rw [hs] at h
      simp only [Option.some_bind] at h
      dsimp only
      rw [h]
  · intro entries he
    cases hs : cfg.credentials with
    | none =>
      rw [hs] at he
      simp at he
    | some store =>
      rw [hs] at he
      simp only [Option.some_bind] at he
      have hred : getNextCredential cfg ac exh now pid
          = (if (entries.map Prod.fst).length ≤ 1 then none
             else (List.range (entries.map Prod.fst).length).findSome? (fun i =>
               let name := (entries.map Prod.fst).getD
                 ((credStart (entries.map Prod.fst) (jsOrPrimary (alookup ac pid)) + i)
                   % (entries.map Prod.fst).length) []
               if name = jsOrPrimary (alookup ac pid) then none
               else if isExhaustedP exh now (credKey pid name) then none
               else some name)) := by
        unfold getNextCredential
        rw [hs]
        dsimp only
        rw [he]
        rfl
      constructor
      · intro hle
        rw [hred, if_pos hle]
      · intro hgt
        have hchar : getNextCredential cfg ac exh now pid
            = (credScanList (entries.map Prod.fst) (jsOrPrimary (alookup ac pid))).find?
                (credOk exh now pid (jsOrPrimary (alookup ac pid))) := by
          rw [hred, if_neg (by omega)]
          have hbody : (fun i =>
              let name := (entries.map Prod.fst).getD
                ((credStart (entries.map Prod.fst) (jsOrPrimary (alookup ac pid)) + i)
                  % (entries.map Prod.fst).length) []
              if name = jsOrPrimary (alookup ac pid) then none
              else if isExhaustedP exh now (credKey pid name) then none
              else some name)
            = (fun i =>
              if credOk exh now pid (jsOrPrimary (alookup ac pid))
                  ((entries.map Prod.fst).getD
                    ((credStart (entries.map Prod.fst) (jsOrPrimary (alookup ac pid)) + i)
                      % (entries.map Prod.fst).length) [])
              then some ((entries.map Prod.fst).getD
                    ((credStart (entries.map Prod.fst) (jsOrPrimary (alookup ac pid)) + i)
                      % (entries.map Prod.fst).length) [])
              else none) := by
            funext i
            dsimp only
            exact credBody_eq exh now pid (jsOrPrimary (alookup ac pid)) _
          rw [hbody]
          exact findSome_if_eq_find _ _ _
        refine ⟨hchar, ?_, ?_⟩
        · intro hall
          rw [hchar]
          rw [List.find?_eq_none]
          intro x hx
          have hxm := credScanList_subset _ _ (by omega) x hx
          unfold credOk
          by_cases h1 : x = jsOrPrimary (alookup ac pid)
          · simp [h1]
          · simp [h1, hall x hxm h1]
        · intro n hn
          rw [hchar] at hn
          have hok := List.find?_some hn
          have hmem := List.mem_of_find?_eq_some hn
          have hnm := credScanList_subset _ _ (by omega) n hmem
          unfold credOk at hok
          simp at hok
          exact ⟨hnm, hok.1, hok.2⟩

theorem credentialRotation_c7_witness :
    getNextCredential fxCfgCred [] [] 0 fxP1.data = some (backupName 1)
    ∧ (backupName 1 ∈ fxEntriesP1.map Prod.fst
        ∧ backupName 1 ≠ jsOrPrimary (alookup [] fxP1.data)
        ∧ isExhaustedP [] 0 (credKey fxP1.data (backupName 1)) = false) :=
  ⟨by decide,
   (((credentialRotation_c7 fxCfgCred [] [] 0 fxP1.data).2 fxEntriesP1 (by decide)).2
       (by decide)).2.2 (backupName 1) (by decide)⟩

end HA

namespace HA

-- ==========================================================================
-- C10: credential sync idempotence
-- ==========================================================================

lemma digitVal_digitChar (d : Nat) (h : d < 10) : digitVal (Nat.digitChar d) = d := by
  interval_cases d <;> decide

lemma digitsVal_append (l : List Char) (c : Char) :
    digitsVal (l ++ [c]) = 10 * digitsVal l + digitVal c := by
  unfold digitsVal
  rw [List.foldl_append]
  rfl

lemma natDigitsAux_val : ∀ fuel n, n ≤ fuel → digitsVal (natDigitsAux fuel n) = n := by
  intro fuel
  induction fuel with
  | zero =>
    intro n hn
    have h0 : n = 0 := by omega
    subst h0
    decide
  | succ f ih =>
    intro n hn
    unfold natDigitsAux
    by_cases h : n < 10
    · rw [if_pos h]
      have h1 : digitsVal [Nat.digitChar n] = digitVal (Nat.digitChar n) := by
        unfold digitsVal
        simp
      rw [h1, digitVal_digitChar n h]
    · rw [if_neg h]
      rw [digitsVal_append]
      rw [ih (n / 10) (by omega)]
      rw [digitVal_digitChar (n % 10) (by omega)]
      omega

lemma natDigits_injective (a b : Nat) (h : natDigits a = natDigits b) : a = b := by
  have ha := natDigitsAux_val a a (Nat.le_refl a)
  have hb := natDigitsAux_val b b (Nat.le_refl b)
  unfold natDigits at h
  rw [← ha, ← hb, h]

lemma backupName_injective (a b : Nat) (h : backupName a = backupName b) : a = b := by
  unfold backupName at h
  exact natDigits_injective a b (List.append_cancel_left h)

lemma alookup_mem_keys {β : Type} (m : List (Str × β)) (k : Str) (v : β)
    (h : alookup m k = some v) : k ∈ m.map Prod.fst := by
  induction m with
  | nil => exact Option.noConfusion h
  | cons hd tl ih =>
    obtain ⟨a, b⟩ := hd
    by_cases ha : a = k
    · subst ha
      exact List.mem_cons_self _ _
    · have h2 : alookup tl k = some v := by
        unfold alookup at h
        rwa [if_neg ha] at h
      exact List.mem_cons_of_mem _ (ih h2)

lemma freshCounter_free (entries : CredMap) :
    alookup entries (backupName (freshCounter entries)) = none := by
  unfold freshCounter
  cases hf : (List.range (entries.length + 1)).find?
      (fun i => (alookup entries (backupName (i + 1))).isNone) with
  | some i =>
    have hp := List.find?_some hf
    simpa [Option.isNone_iff_eq_none] using hp
  | none =>
    exfalso
    rw [List.find?_eq_none] at hf
    have hmem : ∀ i, i < entries.length + 1 →
        backupName (i + 1) ∈ entries.map Prod.fst := by
      intro i hi
      have hfi := hf i (List.mem_range.mpr hi)
      cases hv : alookup entries (backupName (i + 1)) with
      | none => rw [hv] at hfi; simp at hfi
      | some v => exact alookup_mem_keys _ _ _ hv
    have hinj : Function.Injective (fun i : Nat => backupName (i + 1)) := by
      intro x y hxy
      have := backupName_injective (x + 1) (y + 1) hxy
      omega
    have hnd : ((List.range (entries.length + 1)).map
        (fun i => backupName (i + 1))).Nodup :=
      List.Nodup.map hinj (List.nodup_range _)
    have hsub : ((List.range (entries.length + 1)).map (fun i => backupName (i + 1)))
        ⊆ entries.map Prod.fst := by
      intro x hx
      obtain ⟨i, hi, hxe⟩ := List.mem_map.mp hx
      rw [← hxe]
      exact hmem i (List.mem_range.mp hi)
    have hle := (List.Nodup.subperm hnd hsub).length_le
    simp at hle

lemma chosenName_free (entries : CredMap) :
    alookup entries (chosenName entries) = none := by
  unfold chosenName
  by_cases h : (alookup entries sPrimary.data).isNone = true
  · rw [if_pos h]
    simpa [Option.isNone_iff_eq_none] using h
  · rw [if_neg h]
    exact freshCounter_free entries

lemma credentialsMatch_refl (c : Cred) (h : goodCredType c) :
    credentialsMatch c c = true := by
  unfold credentialsMatch
  have hne : sApiKey.data ≠ sOauth.data := by decide
  rcases h with h | h
  · simp [h]
  · simp [h, hne]

lemma syncOne_found (store : CredStore) (p : Str) (c : Cred)
    (h : hasMatchFor store p c) : syncOne store p c = store := by
  unfold syncOne
  dsimp only
  obtain ⟨m, hm, nc, hmem, hmatch⟩ := h
  rw [hm]
  simp only [Option.getD_some]
  rw [if_pos (List.any_eq_true.mpr ⟨nc, hmem, hmatch⟩)]

lemma syncOne_preserves_binding {store : CredStore} {p : Str} {m : CredMap}
    {n : Str} {c : Cred} (q : Str) (d : Cred)
    (hm : alookup store p = some m) (hn : alookup m n = some c) :
    ∃ m2, alookup (syncOne store q d) p = some m2 ∧ alookup m2 n = some c := by
  unfold syncOne
  dsimp only
  split
  · exact ⟨m, hm, hn⟩
  · by_cases hpq : p = q
    · subst hpq
      rw [alookup_aset_self]
      refine ⟨_, rfl, ?_⟩
      rw [hm]
      simp only [Option.getD_some]
      rw [aset_of_alookup_none _ _ _ (chosenName_free m)]
      exact alookup_append_some _ _ _ _ hn
    · refine ⟨m, ?_, hn⟩
      rw [alookup_aset_ne _ _ _ _ hpq]
      exact hm

lemma syncOne_preserves_match {store : CredStore} {p : Str} {c : Cred}
    (q : Str) (d : Cred)
    (h : hasMatchFor store p c) : hasMatchFor (syncOne store q d) p c := by
  obtain ⟨m, hm, nc, hmem, hmatch⟩ := h
  unfold syncOne
  dsimp only
  split
  · exact ⟨m, hm, nc, hmem, hmatch⟩
  · by_cases hpq : p = q
    · subst hpq
      refine ⟨_, alookup_aset_self _ _ _, nc, ?_, hmatch⟩
      rw [hm]
      simp only [Option.getD_some]
      rw [aset_of_alookup_none _ _ _ (chosenName_free m)]
      exact List.mem_append_left _ hmem
    · refine ⟨m, ?_, nc, hmem, hmatch⟩
      rw [alookup_aset_ne _ _ _ _ hpq]
      exact hm

lemma syncOne_self_match (store : CredStore) (p : Str) (c : Cred)
    (hg : goodCredType c) : hasMatchFor (syncOne store p c) p c := by
  unfold syncOne
  dsimp only
  split
  · next hany =>
    obtain ⟨nc, hmem, hmatch⟩ := List.any_eq_true.mp hany
    cases hv : alookup store p with
    | none =>
      rw [hv] at hmem
      simp at hmem
    | some m =>
      rw [hv] at hmem
      simp only [Option.getD_some] at hmem
      exact ⟨m, hv, nc, hmem, hmatch⟩
  · refine ⟨_, alookup_aset_self _ _ _,
      (chosenName ((alookup store p).getD []), c), ?_,
      credentialsMatch_refl c hg⟩
    rw [aset_of_alookup_none _ _ _ (chosenName_free _)]
    exact List.mem_append_right _ (by simp)

lemma sync_preserves_match (auth : List (Str × Cred)) (store : CredStore)
    (p : Str) (c : Cred)
    (h : hasMatchFor store p c) : hasMatchFor (syncAuthToHa auth store) p c := by
  induction auth generalizing store with
  | nil => exact h
  | cons pc rest ih =>
    show hasMatchFor (syncAuthToHa rest (syncOne store pc.1 pc.2)) p c
    exact ih _ (syncOne_preserves_match _ _ h)

lemma sync_preserves_binding (auth : List (Str × Cred)) (store : CredStore)
    (p : Str) (m : CredMap) (n : Str) (c : Cred)
    (hm : alookup store p = some m) (hn : alookup m n = some c) :
    ∃ m2, alookup (syncAuthToHa auth store) p = some m2 ∧ alookup m2 n = some c := by
  induction auth generalizing store m with
  | nil => exact ⟨m, hm, hn⟩
  | cons pc rest ih =>
    obtain ⟨m2, hm2, hn2⟩ := syncOne_preserves_binding pc.1 pc.2 hm hn
    show ∃ m3, alookup (syncAuthToHa rest (syncOne store pc.1 pc.2)) p = some m3
      ∧ alookup m3 n = some c
    exact ih _ m2 hm2 hn2

lemma sync_gives_match (auth : List (Str × Cred)) (store : CredStore)
    (h : ∀ pc ∈ auth, goodCredType pc.2) :
    ∀ pc ∈ auth, hasMatchFor (syncAuthToHa auth store) pc.1 pc.2 := by
  induction auth generalizing store with
  | nil =>
    intro pc hpc
    simp at hpc
  | cons hd rest ih =>
    intro pc hpc
    rcases List.mem_cons.mp hpc with heq | hmem
    · subst heq
      show hasMatchFor (syncAuthToHa rest (syncOne store pc.1 pc.2)) pc.1 pc.2
      exact sync_preserves_match rest _ pc.1 pc.2
        (syncOne_self_match store pc.1 pc.2 (h pc (by simp)))
    · show hasMatchFor (syncAuthToHa rest (syncOne store hd.1 hd.2)) pc.1 pc.2
      exact ih _ (fun x hx => h x (List.mem_cons_of_mem _ hx)) pc hmem

lemma sync_of_allMatch (auth : List (Str × Cred)) (store : CredStore)
    (h : ∀ pc ∈ auth, hasMatchFor store pc.1 pc.2) :
    syncAuthToHa auth store = store := by
  induction auth with
  | nil => rfl
  | cons hd rest ih =>
    have h1 : syncOne store hd.1 hd.2 = store :=
      syncOne_found store hd.1 hd.2 (h hd (by simp))
    show syncAuthToHa rest (syncOne store hd.1 hd.2) = store
    rw [h1]
    exact ih (fun x hx => h x (List.mem_cons_of_mem _ hx))

/-- C10 (amended): running the sync twice with the same auth content leaves
the stored credential set unchanged on the second run, provided every synced
credential has type `oauth` or `api_key` (the only types `credentialsMatch`
can ever report equal); and, unconditionally, existing named entries are
never overwritten by a sync. -/
theorem syncIdempotence_c10_amended :
    (∀ (auth : List (Str × Cred)) (store : CredStore),
        (∀ pc ∈ auth, goodCredType pc.2) →
        syncAuthToHa auth (syncAuthToHa auth store) = syncAuthToHa auth store)
    ∧ (∀ (auth : List (Str × Cred)) (store : CredStore) (p : Str) (m : CredMap)
        (n : Str) (c : Cred),
        alookup store p = some m → alookup m n = some c →
        ∃ m2, alookup (syncAuthToHa auth store) p = some m2
          ∧ alookup m2 n = some c) := by
  constructor
  · intro auth store hg
    exact sync_of_allMatch auth _ (sync_gives_match auth store hg)
  · intro auth store p m n c hm hn
    exact sync_preserves_binding auth store p m n c hm hn

/-- C10 (counterexample): a credential of a type other than `oauth`/`api_key`
never matches even an identical stored copy, so the second sync adds it again
under `backup-1` and the stored set changes. -/
theorem syncIdempotence_c10_counterexample :
    syncAuthToHa fxAuthOther [] = [(fxP1.data, [(sPrimary.data, fxCredOther)])]
    ∧ syncAuthToHa fxAuthOther (syncAuthToHa fxAuthOther [])
        = [(fxP1.data, [(sPrimary.data, fxCredOther), (backupName 1, fxCredOther)])]
    ∧ syncAuthToHa fxAuthOther (syncAuthToHa fxAuthOther [])
        ≠ syncAuthToHa fxAuthOther [] := by
  decide

theorem syncIdempotence_c10_witness :
    syncAuthToHa fxAuthGood (syncAuthToHa fxAuthGood []) = syncAuthToHa fxAuthGood []
    ∧ (∃ m2, alookup (syncAuthToHa fxAuthGood fxStoreB) fxP1.data = some m2
        ∧ alookup m2 (backupName 1) = some fxCredB) :=
  ⟨syncIdempotence_c10_amended.1 fxAuthGood [] (by decide),
   syncIdempotence_c10_amended.2 fxAuthGood fxStoreB fxP1.data
      [(backupName 1, fxCredB)] (backupName 1) fxCredB (by decide) (by decide)⟩

end HA
